import Mathlib

/-!
Verification of the orchestrator-ai workflow editor.

This file shallowly embeds the graph-consistency engine, the column layout
engine, the connector deriver and the template version store of the
repository (src/README.md App component, src/components/WorkflowVisualizer.tsx,
src/services/dbService.ts, src/services/aiService.ts, src/types.ts) and proves
or refutes the spec's claims about them.

Modelling conventions:
  - JS `undefined`/`null` optional fields become `Option`; a missing array and
    a `null` array are both `none`.
  - `Date.now()` / `new Date().toISOString()` are passed in as explicit
    parameters (`now : Nat`, ISO strings), one instant per operation.
  - `localStorage` is explicit state: each dbService operation maps the stored
    template list to a new list plus its return value.
-/

namespace Orchestrator

/-- `InputConfig` from src/types.ts. -/
structure InputConfig where
  source : String
  type : String
  input_type : Option String := none
  prompt_text : Option String := none
  script_content : Option String := none
  prior_step_ids : Option (List Nat) := none
deriving DecidableEq

/-- `WorkflowStep` from src/types.ts. -/
structure WorkflowStep where
  step_id : Nat
  agent_type : String
  agent_ids : Option (List String) := none
  action_description : String
  timing_logic : String
  trigger_condition : Option String := none
  auto_depends_on : Option (List Nat) := none
  recurring_period : Option String := none
  recurring_time : Option String := none
  recurring_stop_condition : Option String := none
  parallel_group : Option String := none
  depends_on : Option (List Nat) := none
  input_config : InputConfig
  output_storage : String
  inline_comment : Option String := none
  execution_status : Option String := none
deriving DecidableEq

/-- `WorkflowMetadata` from src/types.ts. -/
structure WorkflowMetadata where
  workflow_name : String
  instance_id : String
  is_template : Bool
  version : String
deriving DecidableEq

/-- `WorkflowResult` from src/types.ts. -/
structure WorkflowResult where
  workflow_metadata : WorkflowMetadata
  steps : List WorkflowStep
deriving DecidableEq

/-- The id-reindexing pass shared by every mutation in the App component
(src/README.md, `updateSteps`): `steps.map((s, i) => ({ ...s, step_id: i + 1 }))`,
written with the running index explicit. -/
def reindexFrom (i : Nat) : List WorkflowStep → List WorkflowStep
  | [] => []
  | s :: rest => { s with step_id := i + 1 } :: reindexFrom (i + 1) rest

/-- `steps.map((s, i) => ({ ...s, step_id: i + 1 }))` from `updateSteps`
(src/README.md). -/
def reindexSteps (steps : List WorkflowStep) : List WorkflowStep :=
  reindexFrom 0 steps

/-- The step-list effect of `handleDeleteStep` (src/README.md):
`updateSteps(workflow.steps.filter(s => s.step_id !== stepId))`, i.e. drop the
step and reindex the survivors. -/
def deleteStep (steps : List WorkflowStep) (stepId : Nat) : List WorkflowStep :=
  reindexSteps (steps.filter (fun s => s.step_id != stepId))

/-- Step constructor supplying the incidental fields, used for concrete
test graphs. -/
def mkStep (id : Nat) (deps : Option (List Nat)) (auto : Option (List Nat))
    (pg : Option String) : WorkflowStep :=
  { step_id := id
    agent_type := "Content"
    action_description := ""
    timing_logic := "Manual"
    auto_depends_on := auto
    parallel_group := pg
    depends_on := deps
    input_config := { source := "PM_Input", type := "Raw_Text" }
    output_storage := "" }

/-- The spec's §8 concrete delete example:
`[{id:1, deps:[]}, {id:2, deps:[1]}, {id:3, deps:[]}]`. -/
def exDelete : List WorkflowStep :=
  [mkStep 1 (some []) none none, mkStep 2 (some [1]) none none,
   mkStep 3 (some []) none none]

/-- `TemplateVersion` from src/services/dbService.ts (versioned variant). -/
structure TemplateVersion where
  id : String
  version : Nat
  workflow : WorkflowResult
  savedAt : String
  changeNote : String
deriving DecidableEq

/-- `WorkflowTemplate` from src/services/dbService.ts (versioned variant). -/
structure WorkflowTemplate where
  id : String
  name : String
  description : String
  workflow : WorkflowResult
  createdAt : String
  updatedAt : String
  tags : List String
  versions : List TemplateVersion
deriving DecidableEq

/-- `saveTemplate` from src/services/dbService.ts. The stored template list is
passed in and the updated list is returned together with the saved template.
`now` stands for `Date.now()` and `nowIso` for `new Date().toISOString()`
during this call. -/
def saveTemplate (store : List WorkflowTemplate) (workflow : WorkflowResult)
    (name : String) (description : String) (tags : List String)
    (changeNote : String) (now : Nat) (nowIso : String) :
    List WorkflowTemplate × WorkflowTemplate :=
  match store.find? (fun t => t.name == name) with
  | some existing =>
      let newVersion : TemplateVersion :=
        { id := "ver_" ++ toString now
          version := existing.versions.length + 1
          workflow := existing.workflow
          savedAt := existing.updatedAt
          changeNote := changeNote }
      let updated : WorkflowTemplate :=
        { existing with
          workflow := workflow
          description := if description != "" then description
                         else existing.description
          tags := if tags.length != 0 then tags else existing.tags
          updatedAt := nowIso
          versions := existing.versions ++ [newVersion] }
      -- `templates[idx] = updated` with `idx = findIndex(t => t.id === existing.id)`
      (match store.findIdx? (fun t => t.id == existing.id) with
       | some idx => (store.set idx updated, updated)
       | none => (store, updated))
  | none =>
      let created : WorkflowTemplate :=
        { id := "template_" ++ toString now
          name := name
          description := description
          workflow := workflow
          createdAt := nowIso
          updatedAt := nowIso
          tags := tags
          versions := [] }
      (store ++ [created], created)

/-- The clone record built by `cloneTemplate` (`cloned` in
src/services/dbService.ts). -/
def clonedTemplate (original : WorkflowTemplate) (now : Nat)
    (nowIso : String) : WorkflowTemplate :=
  { original with
    id := "template_" ++ toString now
    name := original.name ++ " (Copy)"
    createdAt := nowIso
    updatedAt := nowIso
    versions := [] }

/-- `cloneTemplate` from src/services/dbService.ts. -/
def cloneTemplate (store : List WorkflowTemplate) (id : String) (now : Nat)
    (nowIso : String) : List WorkflowTemplate × Option WorkflowTemplate :=
  match store.find? (fun t => t.id == id) with
  | none => (store, none)
  | some original =>
      (store ++ [clonedTemplate original now nowIso],
       some (clonedTemplate original now nowIso))

/-- The auto snapshot version built by `restoreTemplateVersion`
(`snapshot` in src/services/dbService.ts). -/
def restoreSnapshot (template : WorkflowTemplate) (ver : TemplateVersion)
    (now : Nat) : TemplateVersion :=
  { id := "ver_" ++ toString now
    version := template.versions.length + 1
    workflow := template.workflow
    savedAt := template.updatedAt
    changeNote := "Auto snapshot before restore to v" ++ toString ver.version }

/-- The updated template record built by `restoreTemplateVersion`
(`restored` in src/services/dbService.ts). -/
def restoredTemplate (template : WorkflowTemplate) (ver : TemplateVersion)
    (now : Nat) (nowIso : String) : WorkflowTemplate :=
  { template with
    workflow := ver.workflow
    updatedAt := nowIso
    versions := template.versions ++ [restoreSnapshot template ver now] }

/-- `restoreTemplateVersion` from src/services/dbService.ts. -/
def restoreTemplateVersion (store : List WorkflowTemplate)
    (templateId : String) (versionId : String) (now : Nat) (nowIso : String) :
    List WorkflowTemplate × Option WorkflowTemplate :=
  match store.findIdx? (fun t => t.id == templateId) with
  | none => (store, none)
  | some idx =>
      match store.get? idx with
      | none => (store, none)  -- unreachable: findIdx? yields an in-range index
      | some template =>
          match template.versions.find? (fun v => v.id == versionId) with
          | none => (store, none)
          | some ver =>
              (store.set idx (restoredTemplate template ver now nowIso),
               some (restoredTemplate template ver now nowIso))

/-- A throwaway concrete workflow graph. -/
def mkGraph (tag : String) : WorkflowResult :=
  { workflow_metadata :=
      { workflow_name := tag, instance_id := tag, is_template := false,
        version := "v1" }
    steps := [] }

/-- Concrete template used in the clone-id counterexample: its id is the very
string `cloneTemplate` will generate at `now = 5`. -/
def tmplClone : WorkflowTemplate :=
  { id := "template_5"
    name := "Base"
    description := ""
    workflow := mkGraph "g"
    createdAt := "t0"
    updatedAt := "t0"
    tags := []
    versions := [] }

/-- The result handling of `generateWithOpenAI` (src/services/aiService.ts):
`text = completion.choices[0]?.message?.content; if (!text) throw ...;
return JSON.parse(text) as WorkflowResult`.  The network call and
`JSON.parse` are abstracted: `responseText` is the content the provider
returned (or `none`), `parse` is JSON parsing (`none` = SyntaxError, which
the surrounding catch rethrows). -/
def ingestGenerated (responseText : Option String)
    (parse : String → Option WorkflowResult) : Except String WorkflowResult :=
  match responseText with
  | none => Except.error "No response generated from OpenAI."
  | some t =>
      match parse t with
      | none => Except.error "SyntaxError"
      | some w => Except.ok w

/-- Spec predicate (spec §3 invariant (a)): the step ids are exactly the set
`{1..N}`. -/
def denseIds (steps : List WorkflowStep) : Prop :=
  (steps.map (·.step_id)).Perm (List.range' 1 steps.length)

/-- Spec predicate (spec §3 invariant (b), restricted to `depends_on`): every
referenced id names a step present in the graph. -/
def validRefs (steps : List WorkflowStep) : Prop :=
  ∀ s ∈ steps, ∀ d ∈ s.depends_on.getD [], ∃ t ∈ steps, t.step_id = d

instance (steps : List WorkflowStep) : Decidable (denseIds steps) := by
  unfold denseIds
  infer_instance

instance (steps : List WorkflowStep) : Decidable (validRefs steps) := by
  unfold validRefs
  infer_instance

/-- A malformed generation result: ids `{1, 3}` (not dense) and a dangling
`depends_on` reference to step 7. -/
def badWf : WorkflowResult :=
  { workflow_metadata :=
      { workflow_name := "bad", instance_id := "i", is_template := false,
        version := "v1" }
    steps := [mkStep 1 (some [7]) none none, mkStep 3 (some []) none none] }

/-- The per-step dependency selection of the connector builder
(src/components/WorkflowVisualizer.tsx, `connectorPaths` loop):
`explicitDeps = step.depends_on || (step.auto_depends_on ?: [])` — note that
in JS an EMPTY array is truthy, so a present-but-empty `depends_on` still
shadows `auto_depends_on` — then
`deps = explicitDeps.length > 0 ? explicitDeps : (idx > 0 ? [prev.step_id] : [])`. -/
def effectiveDeps (steps : List WorkflowStep) (idx : Nat) : List Nat :=
  match steps.get? idx with
  | none => []
  | some step =>
      let explicitDeps :=
        match step.depends_on with
        | some l => l
        | none => step.auto_depends_on.getD []
      if explicitDeps.length > 0 then explicitDeps
      else if idx > 0 then
        match steps.get? (idx - 1) with
        | some prev => [prev.step_id]
        | none => []
      else []

/-- One connector record per derived `(predecessor, step)` pair, kept only
when both endpoints have a measured rectangle (`if (fr && tr)` in
`connectorPaths`); `hasRect` abstracts the `nodeRects` table. -/
def connectorEdges (steps : List WorkflowStep) (hasRect : Nat → Bool) :
    List (Nat × Nat) :=
  ((List.range steps.length).map fun idx =>
    match steps.get? idx with
    | none => []
    | some step =>
        (effectiveDeps steps idx).filterMap fun depId =>
          if hasRect depId && hasRect step.step_id then
            some (depId, step.step_id)
          else none).flatten

/-- Connector example: step 3 has no `depends_on` but carries a non-empty
`auto_depends_on`. -/
def exConn : List WorkflowStep :=
  [mkStep 1 none none none, mkStep 2 none none none,
   mkStep 3 none (some [1]) none]

/-- The id map of `remapStepIds` (src/components/WorkflowVisualizer.tsx):
`steps.forEach((s, i) => idMap.set(s.step_id, i + 1))`. -/
def buildIdMapFrom (i : Nat) : List WorkflowStep → List (Nat × Nat)
  | [] => []
  | s :: rest => (s.step_id, i + 1) :: buildIdMapFrom (i + 1) rest

/-- The full id map built by `remapStepIds`. -/
def buildIdMap (steps : List WorkflowStep) : List (Nat × Nat) :=
  buildIdMapFrom 0 steps

/-- `Map.get` on a `Map` built by repeated `set`: the LAST `set` for a key
wins, a missing key gives `none` (undefined). -/
def mapLookup (m : List (Nat × Nat)) (k : Nat) : Option Nat :=
  (m.reverse.find? (fun p => p.1 == k)).map (·.2)

/-- JS default `Array.sort()` comparator on numbers compares their decimal
string representations (lexicographically). -/
def jsLeNat (a b : Nat) : Bool := decide (toString a ≤ toString b)

/-- Stable insertion step for `jsSortNats`. -/
def jsInsertNat (a : Nat) : List Nat → List Nat
  | [] => [a]
  | b :: rest => if jsLeNat a b then a :: b :: rest else b :: jsInsertNat a rest

/-- `.sort()` with the JS default comparator.  Distinct naturals have distinct
decimal strings, so the string order is total and strict and any sort
implementing it produces the JS result. -/
def jsSortNats : List Nat → List Nat
  | [] => []
  | a :: rest => jsInsertNat a (jsSortNats rest)

/-- `ids.map(id => idMap.get(id) || id).sort()` from `remapStepIds`; the
mapped values are `i + 1 ≥ 1`, never falsy, so `||` only covers a missing
key — a stale id is KEPT, not dropped. -/
def remapIdList (idMap : List (Nat × Nat)) (l : List Nat) : List Nat :=
  jsSortNats (l.map fun id => (mapLookup idMap id).getD id)

/-- The per-step body of `remapStepIds`: new dense id plus remapping of
`depends_on`, `auto_depends_on` and `input_config.prior_step_ids` (each only
when present). -/
def remapFrom (idMap : List (Nat × Nat)) (i : Nat) :
    List WorkflowStep → List WorkflowStep
  | [] => []
  | s :: rest =>
      { s with
        step_id := i + 1
        depends_on := s.depends_on.map (remapIdList idMap)
        auto_depends_on := s.auto_depends_on.map (remapIdList idMap)
        input_config := { s.input_config with
          prior_step_ids :=
            s.input_config.prior_step_ids.map (remapIdList idMap) } } ::
        remapFrom idMap (i + 1) rest

/-- `remapStepIds` from src/components/WorkflowVisualizer.tsx. -/
def remapStepIds (steps : List WorkflowStep) : List WorkflowStep :=
  remapFrom (buildIdMap steps) 0 steps

/-- The workflow-relevant state of the App component (src/README.md): current
step list, undo/redo history and history index.  `historyIdx` starts at 0
because every path that enables editing (`handleGenerate`,
`handleNewWorkflow`, `handleLoadTemplate`) sets `history = [steps]`,
`historyIdx = 0`; before that `workflow` is null and `updateSteps`, `undo`
and `redo` all return immediately. -/
structure AppState where
  steps : List WorkflowStep
  history : List (List WorkflowStep)
  historyIdx : Nat
deriving DecidableEq

/-- `.slice(-50)`: keep the last 50 entries. -/
def takeLast (n : Nat) (l : List (List WorkflowStep)) :
    List (List WorkflowStep) :=
  l.drop (l.length - n)

/-- `pushHistory` from src/README.md: truncate the redo tail
(`prev.slice(0, historyIdx + 1)`), append the entry, keep the last 50, and
advance the index (capped at 49). -/
def pushHistory (st : AppState) (entry : List WorkflowStep) : AppState :=
  { st with
    history := takeLast 50 (st.history.take (st.historyIdx + 1) ++ [entry])
    historyIdx := min (st.historyIdx + 1) 49 }

/-- `updateSteps` from src/README.md: push the PRE-edit list onto history,
then store the reindexed new list. -/
def updateSteps (st : AppState) (steps : List WorkflowStep) : AppState :=
  let pushed := pushHistory st st.steps
  { pushed with steps := reindexSteps steps }

/-- `undo` from src/README.md (`historyIdx <= 0` guard; the in-range access
`history[historyIdx - 1]` is modelled with a default that is never reached in
the states exercised here). -/
def undo (st : AppState) : AppState :=
  if st.historyIdx = 0 then st
  else
    { st with
      historyIdx := st.historyIdx - 1
      steps := st.history.getD (st.historyIdx - 1) [] }

/-- `redo` from src/README.md (`historyIdx >= history.length - 1` guard). -/
def redo (st : AppState) : AppState :=
  if st.history.length ≤ st.historyIdx + 1 then st
  else
    { st with
      historyIdx := st.historyIdx + 1
      steps := st.history.getD (st.historyIdx + 1) [] }

/-- State set by `handleGenerate` / `handleNewWorkflow` /
`handleLoadTemplate`: `history = [steps]`, `historyIdx = 0`. -/
def loadWorkflow (steps : List WorkflowStep) : AppState :=
  { steps := steps, history := [steps], historyIdx := 0 }

/-- Swap two positions of a list (`[steps[index], steps[ti]] = [steps[ti],
steps[index]]`); positions come from `findIndex`/bounds checks, so both are
in range whenever this is reached through the UI. -/
def swapAt (l : List WorkflowStep) (i j : Nat) : List WorkflowStep :=
  match l.get? i, l.get? j with
  | some a, some b => (l.set i b).set j a
  | _, _ => l

/-- The structural edits reachable through the App's update path:
`handleSaveStep` (insert after an anchor / append / replace),
`handleDeleteStep`, `moveStep` (±1), `handleDrop` (drag and drop), and the
raw `onReorderSteps` callback. -/
inductive EditOp where
  | insertAfter (anchor : Option Nat) (s : WorkflowStep)
  | replace (s : WorkflowStep)
  | delete (id : Nat)
  | moveLeft (index : Nat)
  | moveRight (index : Nat)
  | dragDrop (draggedId targetId : Nat)
  | reorder (l : List WorkflowStep)

/-- Dispatch of one edit through the App handlers (src/README.md and
src/components/WorkflowVisualizer.tsx).  Every branch that mutates ends in
`updateSteps`; guard failures leave the state untouched.  A missing anchor
index (`findIndex = -1`) makes `splice(-1 + 1 = 0, 0, s)` insert at the
front. -/
def applyEdit (st : AppState) : EditOp → AppState
  | EditOp.insertAfter none s => updateSteps st (st.steps ++ [s])
  | EditOp.insertAfter (some a) s =>
      let idx :=
        match st.steps.findIdx? (fun t => t.step_id == a) with
        | some i => i + 1
        | none => 0
      updateSteps st (st.steps.take idx ++ [s] ++ st.steps.drop idx)
  | EditOp.replace s =>
      updateSteps st
        (st.steps.map fun t => if t.step_id == s.step_id then s else t)
  | EditOp.delete id =>
      updateSteps st (st.steps.filter fun s => s.step_id != id)
  | EditOp.moveLeft index =>
      match index with
      | 0 => st
      | j + 1 =>
          if j < st.steps.length then
            updateSteps st (remapStepIds (swapAt st.steps (j + 1) j))
          else st
  | EditOp.moveRight index =>
      if index + 1 < st.steps.length then
        updateSteps st (remapStepIds (swapAt st.steps index (index + 1)))
      else st
  | EditOp.dragDrop draggedId targetId =>
      if draggedId == targetId then st
      else
        match st.steps.findIdx? (fun s => s.step_id == draggedId),
              st.steps.findIdx? (fun s => s.step_id == targetId) with
        | some si, some ti =>
            match st.steps.get? si with
            | some moved =>
                let removed := st.steps.take si ++ st.steps.drop (si + 1)
                updateSteps st
                  (remapStepIds (removed.take ti ++ [moved] ++ removed.drop ti))
            | none => st
        | _, _ => st
  | EditOp.reorder l => updateSteps st (remapStepIds l)

/-- One-step list for the undo/redo counterexample. -/
def exHist0 : List WorkflowStep := [mkStep 1 none none none]

/-- Two-step list: `exHist0` plus one appended step. -/
def exHist1 : List WorkflowStep := exHist0 ++ [mkStep 2 none none none]

/-- JS truthiness of the `parallel_group` tag (`if (pg)`): undefined, null
and the empty string are falsy. -/
def pgTruthy : Option String → Bool
  | none => false
  | some s => s != ""

/-- The `while (i < steps.length)` loop of `buildColumns`
(src/components/WorkflowVisualizer.tsx).  `fuel` bounds the remaining
iterations: every iteration advances `i` by at least 1, so `steps.length`
iterations always suffice and the `fuel = 0` branch is unreachable from
`buildColumns`.  When the current step carries a truthy tag and some steps
with that tag are unplaced, ALL of them (wherever positioned) become one
column and `i` jumps by the group size; otherwise the current step becomes a
singleton column unless already placed.  `unplacedGroup` is the loop's local
`group = steps.filter(s => s.parallel_group === pg && !placed.has(s.step_id))`. -/
def unplacedGroup (steps : List WorkflowStep) (placed : List Nat)
    (pg : Option String) : List WorkflowStep :=
  steps.filter fun s => (s.parallel_group == pg) && !(placed.contains s.step_id)

/-- See `unplacedGroup`: the loop itself. -/
def buildColumnsGo (steps : List WorkflowStep) :
    Nat → List Nat → Nat → List (List WorkflowStep)
  | 0, _, _ => []
  | fuel + 1, placed, i =>
      match steps.get? i with
      | none => []
      | some step =>
          if pgTruthy step.parallel_group &&
              !(unplacedGroup steps placed step.parallel_group).isEmpty then
            unplacedGroup steps placed step.parallel_group ::
              buildColumnsGo steps fuel
                ((unplacedGroup steps placed step.parallel_group).map
                  (·.step_id) ++ placed)
                (i + (unplacedGroup steps placed step.parallel_group).length)
          else if placed.contains step.step_id then
            buildColumnsGo steps fuel placed (i + 1)
          else
            [step] :: buildColumnsGo steps fuel (step.step_id :: placed)
              (i + 1)

/-- `buildColumns` from src/components/WorkflowVisualizer.tsx. -/
def buildColumns (steps : List WorkflowStep) : List (List WorkflowStep) :=
  buildColumnsGo steps steps.length [] 0

/-- Step A of the spec's parallel-group example: tagged `g`. -/
def stepA : WorkflowStep := mkStep 1 none none (some "g")

/-- Step B of the spec's parallel-group example: untagged. -/
def stepB : WorkflowStep := mkStep 2 none none none

/-- Step C of the spec's parallel-group example: tagged `g`,
non-adjacent to A. -/
def stepC : WorkflowStep := mkStep 3 none none (some "g")

/-- The spec's layout example `[A(group=g), B, C(group=g)]`. -/
def exCols : List WorkflowStep := [stepA, stepB, stepC]

/-- Shape invariant of `buildColumns` output relative to an already-placed id
set `P`: every column is either a singleton holding a falsy-tagged unplaced
step, or a non-empty column of steps sharing one truthy tag, all unplaced,
such that no step of that tag occurs in any later column.  `buildColumnsGo`
always produces columns of this shape, and rerunning it on the flattened
columns reproduces them — the two halves of the idempotence proof. -/
inductive ColsOK : List Nat → List (List WorkflowStep) → Prop
  | nil (P : List Nat) : ColsOK P []
  | single (P : List Nat) (x : WorkflowStep) (cs : List (List WorkflowStep))
      (hpg : pgTruthy x.parallel_group = false) (hx : x.step_id ∉ P)
      (hrest : ColsOK (x.step_id :: P) cs) : ColsOK P ([x] :: cs)
  | group (P : List Nat) (c : List WorkflowStep)
      (cs : List (List WorkflowStep)) (g : String)
      (hg : g ≠ "") (hc : c ≠ [])
      (hmem : ∀ s ∈ c, s.parallel_group = some g)
      (hunp : ∀ s ∈ c, s.step_id ∉ P)
      (hlater : ∀ s ∈ cs.flatten, s.parallel_group ≠ some g)
      (hrest : ColsOK (c.map (·.step_id) ++ P) cs) : ColsOK P (c :: cs)

end Orchestrator

namespace Orchestrator

theorem reindexFrom_map_step_id (l : List WorkflowStep) :
    ∀ i, (reindexFrom i l).map (·.step_id) = List.range' (i + 1) l.length := by
  induction l with
  | nil => intro i; simp [reindexFrom]
  | cons s rest ih =>
      intro i
      simp [reindexFrom, List.range'_succ, ih (i + 1)]

theorem reindexSteps_map_step_id (l : List WorkflowStep) :
    (reindexSteps l).map (·.step_id) = List.range' 1 l.length :=
  reindexFrom_map_step_id l 0

theorem reindexFrom_map_depends_on (l : List WorkflowStep) :
    ∀ i, (reindexFrom i l).map (·.depends_on) = l.map (·.depends_on) := by
  induction l with
  | nil => intro i; simp [reindexFrom]
  | cons s rest ih => intro i; simp [reindexFrom, ih (i + 1)]

theorem reindexFrom_map_prior (l : List WorkflowStep) :
    ∀ i, (reindexFrom i l).map (·.input_config.prior_step_ids) =
      l.map (·.input_config.prior_step_ids) := by
  induction l with
  | nil => intro i; simp [reindexFrom]
  | cons s rest ih => intro i; simp [reindexFrom, ih (i + 1)]

theorem length_filter_ne_of_dense (l : List WorkflowStep) (k : Nat)
    (hid : l.map (·.step_id) = List.range' 1 l.length)
    (hk1 : 1 ≤ k) (hkN : k ≤ l.length) :
    (l.filter (fun s => s.step_id != k)).length = l.length - 1 := by
  have hcount : l.countP (fun s => s.step_id == k) = 1 := by
    have h1 : l.countP (fun s => s.step_id == k) =
        (l.map (·.step_id)).count k := by
      simp only [List.count, List.countP_map]
      rfl
    rw [h1, hid]
    refine List.count_eq_one_of_mem (List.nodup_range' _ _) ?_
    rw [List.mem_range']
    exact ⟨k - 1, by omega, by omega⟩
  have hsplit := List.length_eq_countP_add_countP
    (p := fun s => s.step_id == k) (l := l)
  have hne : (l.filter (fun s => s.step_id != k)).length =
      l.countP (fun a => ¬ (a.step_id == k)) := by
    rw [← List.countP_eq_length_filter]
    apply List.countP_congr
    intro a _
    simp [bne]
  omega

/-- C1: the delete path reindexes surviving ids to `{1..N-1}` but carries every
`depends_on` and `prior_step_ids` set over verbatim: a reference to the deleted
step is kept, not dropped, and references to larger ids are not decremented.
On the spec's example, deleting step 1 yields `[{id:1, deps:[1]}, {id:2, deps:[]}]`. -/
theorem deleteStep_reindexes_but_keeps_references
    (steps : List WorkflowStep) (k : Nat)
    (hid : steps.map (·.step_id) = List.range' 1 steps.length)
    (hk1 : 1 ≤ k) (hkN : k ≤ steps.length) :
    (deleteStep steps k).map (·.step_id) = List.range' 1 (steps.length - 1) ∧
    (deleteStep steps k).map (·.depends_on) =
      (steps.filter (fun s => s.step_id != k)).map (·.depends_on) ∧
    (deleteStep steps k).map (·.input_config.prior_step_ids) =
      (steps.filter (fun s => s.step_id != k)).map (·.input_config.prior_step_ids) ∧
    (deleteStep exDelete 1).map (fun s => (s.step_id, s.depends_on)) =
      [(1, some [1]), (2, some [])] := by
  refine ⟨?_, ?_, ?_, by decide⟩
  · rw [deleteStep, reindexSteps, reindexFrom_map_step_id,
      length_filter_ne_of_dense steps k hid hk1 hkN]
  · rw [deleteStep, reindexSteps, reindexFrom_map_depends_on]
  · rw [deleteStep, reindexSteps, reindexFrom_map_prior]

/-- Witness for `deleteStep_reindexes_but_keeps_references` at the spec's
example graph. -/
theorem deleteStep_reindexes_but_keeps_references_witness :
    (deleteStep exDelete 1).map (·.step_id) = List.range' 1 2 ∧
    (deleteStep exDelete 1).map (fun s => (s.step_id, s.depends_on)) =
      [(1, some [1]), (2, some [])] :=
  ⟨(deleteStep_reindexes_but_keeps_references exDelete 1 (by decide)
      (by decide) (by decide)).1,
   (deleteStep_reindexes_but_keeps_references exDelete 1 (by decide)
      (by decide) (by decide)).2.2.2⟩

/-- C1 counterexample: deleting step 1 from the spec's example graph leaves
the surviving reference to the deleted step in place (`deps` of the new step 1
is `[1]`, not `[]` as the claim requires). -/
theorem deleteStep_example_refutes_reference_drop :
    (deleteStep exDelete 1).map (fun s => (s.step_id, s.depends_on)) =
      [(1, some [1]), (2, some [])] ∧
    ¬ (deleteStep exDelete 1).map (fun s => (s.step_id, s.depends_on)) =
      [(1, some []), (2, some [])] := by
  decide

/-- C5: on a name with no existing template, `saveTemplate` creates a template
holding the given graph and an empty version chain; a second save under the
same name appends exactly one version snapshotting the first graph, numbered
prior-chain-length + 1 (hence 1), stamped with the template's prior updated
time and the supplied note, then replaces the current graph and bumps the
updated time.  The last conjunct is the general step: whenever a save hits an
existing template, the appended version snapshots the stored graph and is
numbered `versions.length + 1`. -/
theorem saveTemplate_version_chain
    (store : List WorkflowTemplate) (name d1 d2 note1 note2 : String)
    (tags1 tags2 : List String) (g1 g2 : WorkflowResult)
    (n1 n2 : Nat) (iso1 iso2 : String)
    (hfresh : ∀ t ∈ store, t.name ≠ name) :
    ((saveTemplate store g1 name d1 tags1 note1 n1 iso1).2.workflow = g1 ∧
     (saveTemplate store g1 name d1 tags1 note1 n1 iso1).2.versions = [] ∧
     (saveTemplate store g1 name d1 tags1 note1 n1 iso1).2.name = name ∧
     (saveTemplate store g1 name d1 tags1 note1 n1 iso1).2.updatedAt = iso1) ∧
    ((saveTemplate (saveTemplate store g1 name d1 tags1 note1 n1 iso1).1
        g2 name d2 tags2 note2 n2 iso2).2.versions =
        [⟨"ver_" ++ toString n2, 1, g1, iso1, note2⟩] ∧
     (saveTemplate (saveTemplate store g1 name d1 tags1 note1 n1 iso1).1
        g2 name d2 tags2 note2 n2 iso2).2.workflow = g2 ∧
     (saveTemplate (saveTemplate store g1 name d1 tags1 note1 n1 iso1).1
        g2 name d2 tags2 note2 n2 iso2).2.updatedAt = iso2) ∧
    (∀ (store' : List WorkflowTemplate) (ex : WorkflowTemplate)
        (g : WorkflowResult) (d nt iso : String) (tg : List String) (n : Nat),
      store'.find? (fun t => t.name == name) = some ex →
      (saveTemplate store' g name d tg nt n iso).2.versions =
        ex.versions ++
          [⟨"ver_" ++ toString n, ex.versions.length + 1, ex.workflow,
            ex.updatedAt, nt⟩]) := by
  have hnone : store.find? (fun t => t.name == name) = none := by
    rw [List.find?_eq_none]
    intro t ht
    simpa using hfresh t ht
  have hgen : ∀ (store' : List WorkflowTemplate) (ex : WorkflowTemplate)
      (g : WorkflowResult) (d nt iso : String) (tg : List String) (n : Nat),
      store'.find? (fun t => t.name == name) = some ex →
      (saveTemplate store' g name d tg nt n iso).2.versions =
        ex.versions ++
          [⟨"ver_" ++ toString n, ex.versions.length + 1, ex.workflow,
            ex.updatedAt, nt⟩] ∧
      (saveTemplate store' g name d tg nt n iso).2.workflow = g ∧
      (saveTemplate store' g name d tg nt n iso).2.updatedAt = iso := by
    intro store' ex g d nt iso tg n hfind
    rw [saveTemplate, hfind]
    rcases h2 : store'.findIdx? (fun t => t.id == ex.id) with _ | idx <;>
      simp [h2]
  have h2w : (saveTemplate store g1 name d1 tags1 note1 n1 iso1).2.workflow
      = g1 := by rw [saveTemplate, hnone]
  have h2v : (saveTemplate store g1 name d1 tags1 note1 n1 iso1).2.versions
      = [] := by rw [saveTemplate, hnone]
  have h2n : (saveTemplate store g1 name d1 tags1 note1 n1 iso1).2.name
      = name := by rw [saveTemplate, hnone]
  have h2u : (saveTemplate store g1 name d1 tags1 note1 n1 iso1).2.updatedAt
      = iso1 := by rw [saveTemplate, hnone]
  have h1 : (saveTemplate store g1 name d1 tags1 note1 n1 iso1).1 =
      store ++ [(saveTemplate store g1 name d1 tags1 note1 n1 iso1).2] := by
    rw [saveTemplate, hnone]
  have hfind2 : (saveTemplate store g1 name d1 tags1 note1 n1 iso1).1.find?
      (fun t => t.name == name) =
      some (saveTemplate store g1 name d1 tags1 note1 n1 iso1).2 := by
    rw [h1, List.find?_append, hnone]
    simp [h2n]
  have hsecond := hgen (saveTemplate store g1 name d1 tags1 note1 n1 iso1).1
    (saveTemplate store g1 name d1 tags1 note1 n1 iso1).2
    g2 d2 note2 iso2 tags2 n2 hfind2
  refine ⟨⟨h2w, h2v, h2n, h2u⟩, ⟨?_, hsecond.2.1, hsecond.2.2⟩,
    fun store' ex g d nt iso tg n hf => (hgen store' ex g d nt iso tg n hf).1⟩
  rw [hsecond.1, h2v, h2w, h2u]
  simp

/-- Witness for `saveTemplate_version_chain` on an empty store. -/
theorem saveTemplate_version_chain_witness :
    (saveTemplate (saveTemplate [] (mkGraph "g1") "A" "" [] "n1" 1 "t1").1
      (mkGraph "g2") "A" "" [] "n2" 2 "t2").2.versions =
      [⟨"ver_2", 1, mkGraph "g1", "t1", "n2"⟩] ∧
    (saveTemplate (saveTemplate [] (mkGraph "g1") "A" "" [] "n1" 1 "t1").1
      (mkGraph "g2") "A" "" [] "n2" 2 "t2").2.workflow = mkGraph "g2" :=
  ⟨((saveTemplate_version_chain [] "A" "" "" "n1" "n2" [] [] (mkGraph "g1")
      (mkGraph "g2") 1 2 "t1" "t2" (by simp)).2.1).1,
   ((saveTemplate_version_chain [] "A" "" "" "n1" "n2" [] [] (mkGraph "g1")
      (mkGraph "g2") 1 2 "t1" "t2" (by simp)).2.1).2.1⟩

/-- C6: `restoreTemplateVersion` with an unknown template id or unknown
version id returns `none` and leaves the store unchanged; with a known pair it
replaces only the target template, appending exactly one version that
snapshots the current graph (auto note naming the target version number,
prior updated time as timestamp), keeps every existing version, sets the
current graph to the target's snapshot and bumps the updated time. -/
theorem restoreTemplateVersion_spec (store : List WorkflowTemplate)
    (tid vid : String) (n : Nat) (iso : String) :
    (store.findIdx? (fun t => t.id == tid) = none →
      restoreTemplateVersion store tid vid n iso = (store, none)) ∧
    (∀ idx T, store.findIdx? (fun t => t.id == tid) = some idx →
      store.get? idx = some T →
      (T.versions.find? (fun v => v.id == vid) = none →
        restoreTemplateVersion store tid vid n iso = (store, none)) ∧
      (∀ ver, T.versions.find? (fun v => v.id == vid) = some ver →
        ∃ restored,
          restoreTemplateVersion store tid vid n iso =
            (store.set idx restored, some restored) ∧
          restored.versions = T.versions ++
            [⟨"ver_" ++ toString n, T.versions.length + 1, T.workflow,
              T.updatedAt,
              "Auto snapshot before restore to v" ++ toString ver.version⟩] ∧
          restored.versions.length = T.versions.length + 1 ∧
          restored.workflow = ver.workflow ∧
          restored.updatedAt = iso ∧
          restored.id = T.id ∧ restored.name = T.name ∧
          restored.createdAt = T.createdAt ∧ restored.tags = T.tags)) := by
  constructor
  · intro h
    simp only [restoreTemplateVersion, h]
  · intro idx T hidx hget
    constructor
    · intro hver
      simp only [restoreTemplateVersion, hidx, hget, hver]
    · intro ver hver
      refine ⟨restoredTemplate T ver n iso, ?_,
        rfl, by simp [restoredTemplate], rfl, rfl, rfl, rfl, rfl, rfl⟩
      simp only [restoreTemplateVersion, hidx, hget, hver]

/-- Concrete one-version template for the restore witness. -/
def tmplRestore : WorkflowTemplate :=
  { id := "template_1"
    name := "Base"
    description := ""
    workflow := mkGraph "g3"
    createdAt := "t0"
    updatedAt := "t9"
    tags := []
    versions := [⟨"ver_1", 1, mkGraph "g1", "t0", "first"⟩] }

/-- Witness for `restoreTemplateVersion_spec`: restoring version `ver_1` of a
one-version template appends an auto snapshot of the current graph and swaps
in the stored snapshot. -/
theorem restoreTemplateVersion_spec_witness :
    (restoreTemplateVersion [tmplRestore] "template_9" "ver_1" 7 "t10" =
      ([tmplRestore], none)) ∧
    ∃ restored,
      restoreTemplateVersion [tmplRestore] "template_1" "ver_1" 7 "t10" =
        ([tmplRestore].set 0 restored, some restored) ∧
      restored.versions = tmplRestore.versions ++
        [⟨"ver_7", 2, mkGraph "g3", "t9",
          "Auto snapshot before restore to v1"⟩] ∧
      restored.versions.length = 2 ∧
      restored.workflow = mkGraph "g1" ∧
      restored.updatedAt = "t10" := by
  constructor
  · exact (restoreTemplateVersion_spec [tmplRestore] "template_9" "ver_1"
      7 "t10").1 (by decide)
  · obtain ⟨restored, heq, hv, hl, hw, hu, _⟩ :=
      ((restoreTemplateVersion_spec [tmplRestore] "template_1" "ver_1"
        7 "t10").2 0 tmplRestore (by decide) (by decide)).2
        ⟨"ver_1", 1, mkGraph "g1", "t0", "first"⟩ (by decide)
    exact ⟨restored, heq, hv, hl, hw, hu⟩

/-- C9 counterexample: cloning a template whose id is the exact string
`cloneTemplate` generates at the current timestamp produces a clone whose id
EQUALS the source's id, refuting the unconditional distinct-id claim. -/
theorem cloneTemplate_id_collision :
    (cloneTemplate [tmplClone] "template_5" 5 "t1").2.map (·.id) =
      some tmplClone.id ∧ tmplClone.id = "template_5" := by
  constructor <;> rfl

/-- C9 (amended): cloning a known template appends the clone and leaves the
source record untouched; the clone copies the current graph, description and
tags, takes the suffixed name and an empty version chain, and its id is
`template_<now>` — distinct from the source's id except when the source's id
is that very string (same-millisecond collision). -/
theorem cloneTemplate_amended (store : List WorkflowTemplate) (tid : String)
    (orig : WorkflowTemplate) (n : Nat) (iso : String)
    (h : store.find? (fun t => t.id == tid) = some orig) :
    ∃ cloned,
      cloneTemplate store tid n iso = (store ++ [cloned], some cloned) ∧
      cloned.workflow = orig.workflow ∧
      cloned.name = orig.name ++ " (Copy)" ∧
      cloned.versions = [] ∧
      cloned.id = "template_" ++ toString n ∧
      cloned.description = orig.description ∧
      cloned.tags = orig.tags ∧
      cloned.createdAt = iso ∧ cloned.updatedAt = iso ∧
      (orig.id ≠ "template_" ++ toString n → cloned.id ≠ orig.id) := by
  refine ⟨clonedTemplate orig n iso, ?_, rfl, rfl, rfl, rfl, rfl, rfl,
    rfl, rfl, ?_⟩
  · simp only [cloneTemplate, h]
  · intro hne hc
    exact hne (hc ▸ rfl)

/-- Witness for `cloneTemplate_amended` on a one-template store. -/
theorem cloneTemplate_amended_witness :
    ∃ cloned,
      cloneTemplate [tmplClone] "template_5" 7 "t1" =
        ([tmplClone] ++ [cloned], some cloned) ∧
      cloned.workflow = tmplClone.workflow ∧
      cloned.name = "Base (Copy)" ∧
      cloned.versions = [] ∧
      cloned.id ≠ tmplClone.id := by
  obtain ⟨cloned, heq, hw, hn, hv, hid, _, _, _, _, hdist⟩ :=
    cloneTemplate_amended [tmplClone] "template_5" tmplClone 7 "t1" (by decide)
  exact ⟨cloned, heq, hw, hn, hv, hdist (by decide)⟩

/-- C3 counterexample: a parsed response whose step ids are `{1, 3}` (not
dense) and whose `depends_on` dangles is admitted verbatim by the ingestion
path — no dense-id or reference validation happens before acceptance. -/
theorem ingestGenerated_admits_malformed :
    ingestGenerated (some "j") (fun _ => some badWf) = Except.ok badWf ∧
    ¬ denseIds badWf.steps ∧ ¬ validRefs badWf.steps := by
  refine ⟨rfl, by decide, by decide⟩

/-- C3 (amended): the ingestion path fails (as a typed error) only when the
provider returns no content or the content fails JSON parsing; any
successfully parsed value — malformed or not — is admitted unchanged. -/
theorem ingestGenerated_amended (parse : String → Option WorkflowResult)
    (t : String) (w : WorkflowResult) :
    ingestGenerated none parse =
      Except.error "No response generated from OpenAI." ∧
    (parse t = none →
      ingestGenerated (some t) parse = Except.error "SyntaxError") ∧
    (parse t = some w → ingestGenerated (some t) parse = Except.ok w) := by
  refine ⟨rfl, ?_, ?_⟩
  · intro h
    simp only [ingestGenerated, h]
  · intro h
    simp only [ingestGenerated, h]

/-- Witness for `ingestGenerated_amended` at a parser that returns the
malformed graph. -/
theorem ingestGenerated_amended_witness :
    ingestGenerated none (fun _ => some badWf) =
      Except.error "No response generated from OpenAI." ∧
    ingestGenerated (some "j") (fun _ => some badWf) = Except.ok badWf :=
  ⟨(ingestGenerated_amended (fun _ => some badWf) "j" badWf).1,
   (ingestGenerated_amended (fun _ => some badWf) "j" badWf).2.2 rfl⟩

/-- C7 counterexample: step 3 of `exConn` has no `depends_on` (empty/absent in
the claim's sense) and is not first, yet its derived predecessor set is its
`auto_depends_on` value `[1]`, not the single implicit edge `[2]` from the
immediately preceding step. -/
theorem effectiveDeps_auto_refutes_implicit_only :
    (exConn.get? 2).map (·.depends_on) = some none ∧
    (exConn.get? 1).map (·.step_id) = some 2 ∧
    effectiveDeps exConn 2 = [1] ∧
    effectiveDeps exConn 2 ≠ [2] := by
  decide

/-- C7 (amended): a non-empty `depends_on` is used verbatim; when `depends_on`
is absent a non-empty `auto_depends_on` is used instead; only when both are
empty or absent does the deriver fall back to one implicit edge from the
immediately preceding step (none for the first step).  One connector record
is emitted per derived (predecessor, step) pair whose endpoints are measured,
as the concrete evaluation in the last conjunct shows. -/
theorem effectiveDeps_characterization (steps : List WorkflowStep) (idx : Nat)
    (step : WorkflowStep) (hget : steps.get? idx = some step) :
    (∀ l, step.depends_on = some l → l ≠ [] →
      effectiveDeps steps idx = l) ∧
    (∀ l, step.depends_on = none → step.auto_depends_on = some l → l ≠ [] →
      effectiveDeps steps idx = l) ∧
    ((step.depends_on = some [] ∨
      (step.depends_on = none ∧
        (step.auto_depends_on = none ∨ step.auto_depends_on = some []))) →
      (idx = 0 → effectiveDeps steps idx = []) ∧
      (∀ prev, steps.get? (idx - 1) = some prev → 0 < idx →
        effectiveDeps steps idx = [prev.step_id])) ∧
    connectorEdges exConn (fun _ => true) = [(1, 2), (1, 3)] := by
  have hget2 : steps[idx]? = some step := by
    rw [← List.get?_eq_getElem?]
    exact hget
  refine ⟨?_, ?_, ?_, by decide⟩
  · intro l hdep hne
    have hpos : 0 < l.length := List.length_pos.mpr hne
    simp [effectiveDeps, hget2, hdep, hpos]
  · intro l hdep hauto hne
    have hpos : 0 < l.length := List.length_pos.mpr hne
    simp [effectiveDeps, hget2, hdep, hauto, hpos]
  · intro hcases
    have hexp : (match step.depends_on with
        | some l => l
        | none => step.auto_depends_on.getD []) = [] := by
      rcases hcases with h | ⟨h1, h2 | h2⟩
      · simp [h]
      · simp [h1, h2]
      · simp [h1, h2]
    constructor
    · intro h0
      subst h0
      simp [effectiveDeps, hget2, hexp]
    · intro prev hprev hpos
      have hprev2 : steps[idx - 1]? = some prev := by
        rw [← List.get?_eq_getElem?]
        exact hprev
      simp [effectiveDeps, hget2, hexp, hprev2, hpos]

/-- Witness for `effectiveDeps_characterization`: in `exConn`, the first step
derives no edge and the second derives the implicit edge from step 1. -/
theorem effectiveDeps_characterization_witness :
    effectiveDeps exConn 1 = [1] ∧ effectiveDeps exConn 0 = [] :=
  ⟨((effectiveDeps_characterization exConn 1 (mkStep 2 none none none)
      rfl).2.2.1 (Or.inr ⟨rfl, Or.inl rfl⟩)).2 (mkStep 1 none none none)
      rfl (by decide),
   ((effectiveDeps_characterization exConn 0 (mkStep 1 none none none)
      rfl).2.2.1 (Or.inr ⟨rfl, Or.inl rfl⟩)).1 rfl⟩

theorem reindexFrom_length (l : List WorkflowStep) :
    ∀ i, (reindexFrom i l).length = l.length := by
  induction l with
  | nil => intro i; rfl
  | cons s rest ih => intro i; simp [reindexFrom, ih (i + 1)]

theorem updateSteps_steps_dense (st : AppState) (l : List WorkflowStep) :
    (updateSteps st l).steps.map (·.step_id) =
      List.range' 1 (updateSteps st l).steps.length := by
  show (reindexSteps l).map (·.step_id) = List.range' 1 (reindexSteps l).length
  rw [reindexSteps_map_step_id, reindexSteps, reindexFrom_length]

theorem applyEdit_shape (st : AppState) (op : EditOp) :
    applyEdit st op = st ∨ ∃ l, applyEdit st op = updateSteps st l := by
  cases op <;> simp only [applyEdit] <;> (repeat' split) <;>
    first
      | exact Or.inl rfl
      | exact Or.inr ⟨_, rfl⟩

/-- C4: starting from a graph whose ids are exactly `1..N` in order, any
sequence of insert / replace / delete / move / drag / reorder edits applied
through the update path leaves ids exactly `1..N'` in sequence order, where
`N'` is the resulting step count. -/
theorem editSequence_preserves_dense_ids (st : AppState) (ops : List EditOp)
    (h : st.steps.map (·.step_id) = List.range' 1 st.steps.length) :
    (ops.foldl applyEdit st).steps.map (·.step_id) =
      List.range' 1 (ops.foldl applyEdit st).steps.length := by
  induction ops generalizing st with
  | nil => exact h
  | cons op rest ih =>
      rw [List.foldl_cons]
      apply ih
      rcases applyEdit_shape st op with heq | ⟨l, heq⟩
      · rw [heq]; exact h
      · rw [heq]; exact updateSteps_steps_dense st l

/-- Witness for `editSequence_preserves_dense_ids`: delete the middle step of
a three-step workflow and then drag step 2 before step 1. -/
theorem editSequence_preserves_dense_ids_witness :
    ([EditOp.delete 2, EditOp.dragDrop 2 1].foldl applyEdit
      (loadWorkflow exDelete)).steps.map (·.step_id) =
      List.range' 1 ([EditOp.delete 2, EditOp.dragDrop 2 1].foldl applyEdit
        (loadWorkflow exDelete)).steps.length :=
  editSequence_preserves_dense_ids (loadWorkflow exDelete)
    [EditOp.delete 2, EditOp.dragDrop 2 1] (by decide)

/-- C10 counterexample: from a freshly loaded one-step workflow, appending a
step and undoing restores the pre-edit list, but the subsequent redo restores
the PRE-edit list again instead of the post-edit list (which was never pushed
onto history). -/
theorem undo_redo_counterexample :
    (undo (updateSteps (loadWorkflow exHist0) exHist1)).steps = exHist0 ∧
    (redo (undo (updateSteps (loadWorkflow exHist0) exHist1))).steps =
      exHist0 ∧
    (updateSteps (loadWorkflow exHist0) exHist1).steps ≠ exHist0 := by
  decide

/-- C10 (amended): every mutation pushes the PRE-edit list onto a history of
at most 50 entries, discarding the redo tail beyond the current index (up to
the 50-entry trim); the post-edit list itself is never pushed.  From a
freshly loaded workflow an edit followed by undo restores the pre-edit list,
but the subsequent redo restores that same pre-edit list, not the post-edit
one. -/
theorem pushHistory_bound_undo_redo (st : AppState)
    (l s t : List WorkflowStep) :
    (updateSteps st l).history.length ≤ 50 ∧
    (∃ pre, pre <:+ st.history.take (st.historyIdx + 1) ∧
      (updateSteps st l).history = pre ++ [st.steps]) ∧
    (undo (updateSteps (loadWorkflow s) t)).steps = s ∧
    (redo (undo (updateSteps (loadWorkflow s) t))).steps = s := by
  refine ⟨?_, ?_, rfl, rfl⟩
  · simp only [updateSteps, pushHistory, takeLast, List.length_drop]
    omega
  · refine ⟨(st.history.take (st.historyIdx + 1)).drop
      ((st.history.take (st.historyIdx + 1) ++ [st.steps]).length - 50),
      List.drop_suffix _ _, ?_⟩
    simp only [updateSteps, pushHistory, takeLast]
    rw [List.drop_append_of_le_length]
    simp

/-- C2: evaluating `buildColumns` on the spec's own example
`[A(group=g), B, C(group=g)]`.  After the group column `[A, C]` is pushed,
`i += group.length` skips PAST position 1, so the untagged step B lands in no
column at all: the code returns `[[A, C]]`, not the specified `[[A, C], [B]]`,
and the every-step-in-exactly-one-column guarantee fails. -/
theorem buildColumns_example_drops_skipped_step :
    buildColumns exCols = [[stepA, stepC]] ∧
    stepB ∈ exCols ∧
    stepB ∉ (buildColumns exCols).flatten ∧
    buildColumns exCols ≠ [[stepA, stepC], [stepB]] := by
  decide

theorem contains_iff_mem (l : List Nat) (a : Nat) :
    l.contains a = true ↔ a ∈ l := by
  simp [List.contains, List.elem_iff]

theorem contains_eq_false_iff (l : List Nat) (a : Nat) :
    l.contains a = false ↔ a ∉ l := by
  rw [← Bool.not_eq_true, not_iff_not]
  exact contains_iff_mem l a

theorem pgTruthy_iff (o : Option String) :
    pgTruthy o = true ↔ ∃ g, o = some g ∧ g ≠ "" := by
  cases o with
  | none => simp [pgTruthy]
  | some s => simp [pgTruthy, bne]

theorem mem_unplacedGroup (steps : List WorkflowStep) (placed : List Nat)
    (pg : Option String) (s : WorkflowStep) :
    s ∈ unplacedGroup steps placed pg ↔
      s ∈ steps ∧ s.parallel_group = pg ∧ s.step_id ∉ placed := by
  rw [unplacedGroup, List.mem_filter]
  constructor
  · rintro ⟨h1, h2⟩
    rw [Bool.and_eq_true] at h2
    refine ⟨h1, by simpa using h2.1, ?_⟩
    rw [← contains_eq_false_iff, ← Bool.not_eq_true']
    exact h2.2
  · rintro ⟨h1, h2, h3⟩
    refine ⟨h1, ?_⟩
    rw [Bool.and_eq_true]
    refine ⟨by simpa using h2, ?_⟩
    rw [Bool.not_eq_true', contains_eq_false_iff]
    exact h3

theorem mem_unplacedGroup_self (steps : List WorkflowStep) (placed : List Nat)
    (step : WorkflowStep) (hmem : step ∈ steps)
    (hpl : placed.contains step.step_id = false) :
    step ∈ unplacedGroup steps placed step.parallel_group := by
  rw [mem_unplacedGroup]
  exact ⟨hmem, rfl, (contains_eq_false_iff _ _).mp hpl⟩

theorem buildColumnsGo_none (steps : List WorkflowStep) (fuel : Nat)
    (placed : List Nat) (i : Nat) (h : steps.get? i = none) :
    buildColumnsGo steps (fuel + 1) placed i = [] := by
  have h2 : steps[i]? = none := by
    rw [← List.get?_eq_getElem?]
    exact h
  simp [buildColumnsGo, h2]

theorem buildColumnsGo_group (steps : List WorkflowStep) (fuel : Nat)
    (placed : List Nat) (i : Nat) (step : WorkflowStep)
    (h : steps.get? i = some step)
    (hpg : pgTruthy step.parallel_group = true)
    (hne : unplacedGroup steps placed step.parallel_group ≠ []) :
    buildColumnsGo steps (fuel + 1) placed i =
      unplacedGroup steps placed step.parallel_group ::
        buildColumnsGo steps fuel
          ((unplacedGroup steps placed step.parallel_group).map (·.step_id)
            ++ placed)
          (i + (unplacedGroup steps placed step.parallel_group).length) := by
  have h2 : steps[i]? = some step := by
    rw [← List.get?_eq_getElem?]
    exact h
  simp [buildColumnsGo, h2, hpg, hne]

theorem buildColumnsGo_skip (steps : List WorkflowStep) (fuel : Nat)
    (placed : List Nat) (i : Nat) (step : WorkflowStep)
    (h : steps.get? i = some step)
    (hcond : pgTruthy step.parallel_group = false ∨
      unplacedGroup steps placed step.parallel_group = [])
    (hpl : placed.contains step.step_id = true) :
    buildColumnsGo steps (fuel + 1) placed i =
      buildColumnsGo steps fuel placed (i + 1) := by
  have h2 : steps[i]? = some step := by
    rw [← List.get?_eq_getElem?]
    exact h
  have hm : step.step_id ∈ placed := (contains_iff_mem _ _).mp hpl
  rcases hcond with hc | hc <;> simp [buildColumnsGo, h2, hc, hm]

theorem buildColumnsGo_single (steps : List WorkflowStep) (fuel : Nat)
    (placed : List Nat) (i : Nat) (step : WorkflowStep)
    (h : steps.get? i = some step)
    (hcond : pgTruthy step.parallel_group = false ∨
      unplacedGroup steps placed step.parallel_group = [])
    (hpl : placed.contains step.step_id = false) :
    buildColumnsGo steps (fuel + 1) placed i =
      [step] :: buildColumnsGo steps fuel (step.step_id :: placed) (i + 1) := by
  have h2 : steps[i]? = some step := by
    rw [← List.get?_eq_getElem?]
    exact h
  have hm : step.step_id ∉ placed := (contains_eq_false_iff _ _).mp hpl
  rcases hcond with hc | hc <;> simp [buildColumnsGo, h2, hc, hm]

theorem buildColumnsGo_subset (steps : List WorkflowStep) :
    ∀ (fuel : Nat) (placed : List Nat) (i : Nat) (s : WorkflowStep),
      s ∈ (buildColumnsGo steps fuel placed i).flatten →
      s ∈ steps ∧ s.step_id ∉ placed := by
  intro fuel
  induction fuel with
  | zero =>
      intro placed i s hs
      simp [buildColumnsGo] at hs
  | succ fuel ih =>
      intro placed i s hs
      cases hget : steps.get? i with
      | none =>
          rw [buildColumnsGo_none steps fuel placed i hget] at hs
          simp at hs
      | some step =>
          by_cases hpg : pgTruthy step.parallel_group = true
          · by_cases hne :
                unplacedGroup steps placed step.parallel_group = []
            · by_cases hpl : placed.contains step.step_id = true
              · rw [buildColumnsGo_skip steps fuel placed i step hget
                  (Or.inr hne) hpl] at hs
                exact ih placed (i + 1) s hs
              · exfalso
                have hm := mem_unplacedGroup_self steps placed step
                  (List.get?_mem hget) (by simpa using hpl)
                rw [hne] at hm
                exact absurd hm (List.not_mem_nil step)
            · rw [buildColumnsGo_group steps fuel placed i step hget hpg hne]
                at hs
              rw [List.flatten_cons, List.mem_append] at hs
              rcases hs with hs | hs
              · rw [mem_unplacedGroup] at hs
                exact ⟨hs.1, hs.2.2⟩
              · have h2 := ih _ _ s hs
                exact ⟨h2.1, fun hmem2 =>
                  h2.2 (List.mem_append_right _ hmem2)⟩
          · have hpg2 : pgTruthy step.parallel_group = false := by
              simpa using hpg
            by_cases hpl : placed.contains step.step_id = true
            · rw [buildColumnsGo_skip steps fuel placed i step hget
                (Or.inl hpg2) hpl] at hs
              exact ih placed (i + 1) s hs
            · have hpl2 : placed.contains step.step_id = false := by
                simpa using hpl
              rw [buildColumnsGo_single steps fuel placed i step hget
                (Or.inl hpg2) hpl2] at hs
              rw [List.flatten_cons, List.mem_append] at hs
              rcases hs with hs | hs
              · rw [List.mem_singleton] at hs
                subst hs
                refine ⟨List.get?_mem hget, ?_⟩
                rw [← contains_eq_false_iff]
                exact hpl2
              · have h2 := ih _ _ s hs
                exact ⟨h2.1, fun hmem2 =>
                  h2.2 (List.mem_cons_of_mem _ hmem2)⟩

theorem buildColumnsGo_colsOK (steps : List WorkflowStep) :
    ∀ (fuel : Nat) (placed : List Nat) (i : Nat),
      ColsOK placed (buildColumnsGo steps fuel placed i) := by
  intro fuel
  induction fuel with
  | zero =>
      intro placed i
      exact ColsOK.nil placed
  | succ fuel ih =>
      intro placed i
      cases hget : steps.get? i with
      | none =>
          rw [buildColumnsGo_none steps fuel placed i hget]
          exact ColsOK.nil placed
      | some step =>
          by_cases hpg : pgTruthy step.parallel_group = true
          · by_cases hne :
                unplacedGroup steps placed step.parallel_group = []
            · by_cases hpl : placed.contains step.step_id = true
              · rw [buildColumnsGo_skip steps fuel placed i step hget
                  (Or.inr hne) hpl]
                exact ih placed (i + 1)
              · exfalso
                have hm := mem_unplacedGroup_self steps placed step
                  (List.get?_mem hget) (by simpa using hpl)
                rw [hne] at hm
                exact absurd hm (List.not_mem_nil step)
            · rw [buildColumnsGo_group steps fuel placed i step hget hpg hne]
              obtain ⟨g, hgeq, hgne⟩ := (pgTruthy_iff _).mp hpg
              refine ColsOK.group placed _ _ g hgne hne ?_ ?_ ?_ (ih _ _)
              · intro s hs
                rw [mem_unplacedGroup] at hs
                rw [hs.2.1, hgeq]
              · intro s hs
                rw [mem_unplacedGroup] at hs
                exact hs.2.2
              · intro s hs hsg
                have h2 := buildColumnsGo_subset steps fuel _ _ s hs
                have hnp : s.step_id ∉ placed := fun hp =>
                  h2.2 (List.mem_append_right _ hp)
                have hin : s ∈ unplacedGroup steps placed
                    step.parallel_group := by
                  rw [mem_unplacedGroup]
                  refine ⟨h2.1, ?_, hnp⟩
                  rw [hsg, hgeq]
                exact h2.2 (List.mem_append_left _
                  (List.mem_map_of_mem _ hin))
          · have hpg2 : pgTruthy step.parallel_group = false := by
              simpa using hpg
            by_cases hpl : placed.contains step.step_id = true
            · rw [buildColumnsGo_skip steps fuel placed i step hget
                (Or.inl hpg2) hpl]
              exact ih placed (i + 1)
            · have hpl2 : placed.contains step.step_id = false := by
                simpa using hpl
              rw [buildColumnsGo_single steps fuel placed i step hget
                (Or.inl hpg2) hpl2]
              refine ColsOK.single placed step _ hpg2 ?_ (ih _ _)
              rw [← contains_eq_false_iff]
              exact hpl2

theorem buildColumnsGo_rerun
    {P : List Nat} {cs : List (List WorkflowStep)} (h : ColsOK P cs) :
    ∀ (pre : List WorkflowStep) (fuel : Nat),
      (∀ s ∈ pre, s.step_id ∈ P) →
      (pre ++ cs.flatten).length ≤ fuel + pre.length →
      buildColumnsGo (pre ++ cs.flatten) fuel P pre.length = cs := by
  induction h with
  | nil P =>
      intro pre fuel hpre hlen
      cases fuel with
      | zero => rfl
      | succ fuel =>
          apply buildColumnsGo_none
          rw [List.get?_eq_none]
          simp
  | single P x cs hpg hx hrest ih =>
      intro pre fuel hpre hlen
      cases fuel with
      | zero =>
          exfalso
          simp [List.length_append] at hlen
      | succ fuel =>
          have hget : (pre ++ ([x] :: cs).flatten).get? pre.length =
              some x := by
            rw [List.get?_eq_getElem?, List.getElem?_append_right (Nat.le_refl _)]
            simp
          have hplx : P.contains x.step_id = false := by
            rw [contains_eq_false_iff]
            exact hx
          rw [buildColumnsGo_single _ fuel _ _ x hget (Or.inl hpg) hplx]
          congr 1
          have hre : pre ++ ([x] :: cs).flatten =
              (pre ++ [x]) ++ cs.flatten := by
            simp
          have hlen2 : pre.length + 1 = (pre ++ [x]).length := by simp
          rw [hre, hlen2]
          apply ih
          · intro s hs
            rcases List.mem_append.mp hs with hs | hs
            · exact List.mem_cons_of_mem _ (hpre s hs)
            · rw [List.mem_singleton] at hs
              subst hs
              exact List.mem_cons_self _ _
          · rw [hre] at hlen
            simp [List.length_append] at hlen ⊢
            omega
  | group P c cs g hg hc hmem hunp hlater hrest ih =>
      intro pre fuel hpre hlen
      obtain ⟨hd, tl, rfl⟩ := List.exists_cons_of_ne_nil hc
      cases fuel with
      | zero =>
          exfalso
          simp [List.length_append] at hlen
      | succ fuel =>
          have hget : (pre ++ ((hd :: tl) :: cs).flatten).get? pre.length =
              some hd := by
            rw [List.get?_eq_getElem?, List.getElem?_append_right (Nat.le_refl _)]
            simp
          have hgpd : hd.parallel_group = some g :=
            hmem hd (List.mem_cons_self _ _)
          have hpgt : pgTruthy hd.parallel_group = true := by
            rw [pgTruthy_iff]
            exact ⟨g, hgpd, hg⟩
          have hsplit : pre ++ ((hd :: tl) :: cs).flatten =
              pre ++ (hd :: tl) ++ cs.flatten := by
            simp
          have hgroup : unplacedGroup (pre ++ ((hd :: tl) :: cs).flatten) P
              hd.parallel_group = hd :: tl := by
            rw [hgpd, unplacedGroup, hsplit, List.filter_append,
              List.filter_append]
            have hp1 : pre.filter (fun s => (s.parallel_group == some g) &&
                !(P.contains s.step_id)) = [] := by
              rw [List.filter_eq_nil_iff]
              intro s hs
              have hsm : s.step_id ∈ P := hpre s hs
              simp [hsm]
            have hp2 : (hd :: tl).filter
                (fun s => (s.parallel_group == some g) &&
                  !(P.contains s.step_id)) = hd :: tl := by
              rw [List.filter_eq_self]
              intro s hs
              have h1 : s.parallel_group = some g := hmem s hs
              have h2 : s.step_id ∉ P := hunp s hs
              simp [h1, h2]
            have hp3 : cs.flatten.filter
                (fun s => (s.parallel_group == some g) &&
                  !(P.contains s.step_id)) = [] := by
              rw [List.filter_eq_nil_iff]
              intro s hs
              have h1 : s.parallel_group ≠ some g := hlater s hs
              simp [h1]
            rw [hp1, hp2, hp3]
            simp
          rw [buildColumnsGo_group _ fuel _ _ hd hget hpgt
            (by rw [hgroup]; simp)]
          rw [hgroup]
          congr 1
          have hre : pre ++ ((hd :: tl) :: cs).flatten =
              (pre ++ (hd :: tl)) ++ cs.flatten := by
            simp
          have hlen2 : pre.length + (hd :: tl).length =
              (pre ++ (hd :: tl)).length := by
            simp
          rw [hre, hlen2]
          apply ih
          · intro s hs
            rcases List.mem_append.mp hs with hs | hs
            · exact List.mem_append_right _ (hpre s hs)
            · exact List.mem_append_left _
                (List.mem_map_of_mem _ hs)
          · rw [hre] at hlen
            simp [List.length_append] at hlen ⊢
            omega

/-- C8: `buildColumns` is idempotent — flattening its output (column order,
then within-column order) and rebuilding yields the same columns.  Every
output column is either a falsy-tagged singleton or the complete set of
still-unplaced steps of one truthy tag; in the flattened list those sets are
contiguous and unique per tag, so the second pass reproduces them exactly. -/
theorem buildColumns_idempotent (steps : List WorkflowStep) :
    buildColumns (buildColumns steps).flatten = buildColumns steps := by
  have h1 := buildColumnsGo_colsOK steps steps.length [] 0
  have h2 := buildColumnsGo_rerun h1 []
    ((buildColumnsGo steps steps.length [] 0).flatten.length)
    (by simp) (by simp)
  simpa [buildColumns] using h2

end Orchestrator
